import Mathlib

/-!
# Verification of the bonus-rate store (tbank-bonus-calculator)

Shallow embedding of the rate-store core of `src/server.js` (repeated
verbatim in `src/index.js`, `src/api/index.js` and the unnamed variant):

* the `bonus_rates` table is a list of rows `(level, rate, updated_at)`
  in insertion order (`id` AUTOINCREMENT = list position); `level` is
  declared UNIQUE;
* initialization (`db.serialize` block / `initDatabase`) runs
  `INSERT OR IGNORE INTO bonus_rates (level, rate) VALUES (?, ?)` for the
  three default tiers;
* `GET /api/bonus-rates` runs `SELECT level, rate FROM bonus_rates ORDER
  BY level` and builds a `{level: rate}` object in row order;
* `POST /api/bonus-rates` guards `!rates || typeof rates !== 'object'`,
  then for each key of `rates` runs
  `UPDATE bonus_rates SET rate = ?, updated_at = CURRENT_TIMESTAMP WHERE
  level = ?`, counting completions: the first storage error answers 500,
  the last completion (only when no error occurred) answers 200, and a
  zero-key batch never answers.

Rates are modelled as `Rat`: the code never computes with a rate, it only
stores and returns the submitted numeric value verbatim, so exact
rationals are a faithful carrier for the JSON numbers involved.
Timestamps (`CURRENT_TIMESTAMP`) are modelled as a `Nat` parameter.
A storage-layer failure of one per-row write is modelled by an oracle
`fails : String → Bool` telling which level's UPDATE errors.
-/

namespace TBank

/-- One row of the `bonus_rates` table: `level TEXT UNIQUE`, `rate REAL`,
`updated_at DATETIME`. -/
structure Row where
  level : String
  rate : Rat
  updatedAt : Nat
deriving DecidableEq

/-- The `defaultRates` array of the initialization block: 0.00005,
0.000055 and 0.00006 as exact rationals. -/
def defaultRates : List (String × Rat) :=
  [("Level I", mkRat 5 100000), ("Level II", mkRat 55 1000000), ("Level III", mkRat 6 100000)]

/-- Whether a row with this level already exists (the UNIQUE constraint
check behind `INSERT OR IGNORE`). -/
def levelExists (db : List Row) (level : String) : Bool :=
  db.any (fun row => row.level == level)

/-- `INSERT OR IGNORE INTO bonus_rates (level, rate) VALUES (?, ?)`:
appends a fresh row unless a row with the same level exists. -/
def insertOrIgnore (db : List Row) (level : String) (rate : Rat) (now : Nat) : List Row :=
  if levelExists db level then db else db ++ [⟨level, rate, now⟩]

/-- The initialization block: `CREATE TABLE IF NOT EXISTS` (the list
itself) followed by one `INSERT OR IGNORE` per default tier. -/
def initDatabase (db : List Row) (now : Nat) : List Row :=
  defaultRates.foldl (fun acc p => insertOrIgnore acc p.1 p.2 now) db

/-- Lexicographic order on character lists. SQLite's default BINARY
collation compares UTF-8 bytes, and UTF-8 byte order coincides with code
point order, so this is the collation `ORDER BY level` uses. -/
def charListLe : List Char → List Char → Bool
  | [], _ => true
  | _ :: _, [] => false
  | a :: as, b :: bs =>
    if a < b then true else if b < a then false else charListLe as bs

/-- BINARY-collation comparison of two levels. -/
def strLe (a b : String) : Bool :=
  charListLe a.data b.data

/-- Insert a row into a list sorted by level (ascending). -/
def insertSorted (row : Row) : List Row → List Row
  | [] => [row]
  | r :: rs => if strLe row.level r.level then row :: r :: rs else r :: insertSorted row rs

/-- `ORDER BY level`: ascending lexical sort of the rows by level. -/
def sortByLevel : List Row → List Row
  | [] => []
  | r :: rs => insertSorted r (sortByLevel rs)

/-- `GET /api/bonus-rates`: `SELECT level, rate FROM bonus_rates ORDER BY
level`, shaped into `{level: rate}` pairs in row order (tier names are not
integer-like, so the JS object keeps insertion order). `updated_at` is not
selected. -/
def readAll (db : List Row) : List (String × Rat) :=
  (sortByLevel db).map (fun row => (row.level, row.rate))

/-- `UPDATE bonus_rates SET rate = ?, updated_at = CURRENT_TIMESTAMP WHERE
level = ?`: every row whose level matches gets the new rate and timestamp;
zero matching rows is a silent no-op. -/
def updateRate (db : List Row) (rate : Rat) (level : String) (now : Nat) : List Row :=
  db.map (fun row =>
    if row.level == level then { row with rate := rate, updatedAt := now } else row)

/-- The JSON values a `rates` field of the request body can hold, as the
guard and `Object.keys` see them. An `obj` carries its entries in JS
insertion order (a JS object has no duplicate keys). -/
inductive JSValue where
  | null
  | undef
  | bool (b : Bool)
  | num (q : Rat)
  | str (s : String)
  | obj (entries : List (String × Rat))
  | arr (elems : List Rat)
deriving DecidableEq

/-- The input guard `!rates || typeof rates !== 'object'`: `null` and
`undefined` are falsy; booleans, numbers and strings have a non-object
`typeof`; plain objects and arrays are truthy with `typeof 'object'`. -/
def invalidRates : JSValue → Bool
  | .null => true
  | .undef => true
  | .bool _ => true
  | .num _ => true
  | .str _ => true
  | .obj _ => false
  | .arr _ => false

/-- `Object.keys` of an array lists its indices as decimal strings, and
indexing the array by such a key yields the element. -/
def indexEntries : List Rat → Nat → List (String × Rat)
  | [], _ => []
  | v :: rest, i => (toString i, v) :: indexEntries rest (i + 1)

/-- The `(key, rates[key])` pairs the `levels.forEach` loop iterates, for a
payload that passed the guard. -/
def entriesOf : JSValue → List (String × Rat)
  | .obj es => es
  | .arr vs => indexEntries vs 0
  | _ => []

/-- One `stmt.run(rates[level], level, cb)` per entry, in `Object.keys`
order. A write whose level the storage layer fails leaves the table
untouched; every later statement still runs (the loop has already issued
them all, and the error flag only suppresses the success response). -/
def applyWrites (fails : String → Bool) (now : Nat) :
    List (String × Rat) → List Row → List Row
  | [], db => db
  | (level, rate) :: rest, db =>
      applyWrites fails now rest (if fails level then db else updateRate db rate level now)

/-- The HTTP outcome of the POST handler. `noResponse` records that the
handler returned without ever calling `res`. -/
inductive Response where
  | ok
  | invalidInput
  | updateFailed
  | noResponse
deriving DecidableEq

/-- `POST /api/bonus-rates`: the guard answers 400 before any store
access; otherwise all per-key writes are issued; the first erroring
callback answers 500 (`hasError` suppresses the success branch); the last
callback answers 200 only when no error occurred; with zero keys no
callback ever runs, so no branch ever answers. -/
def postBonusRates (fails : String → Bool) (now : Nat) (payload : JSValue)
    (db : List Row) : List Row × Response :=
  if invalidRates payload then (db, .invalidInput)
  else
    let entries := entriesOf payload
    (applyWrites fails now entries db,
      if entries.isEmpty then .noResponse
      else if entries.any (fun p => fails p.1) then .updateFailed
      else .ok)

/-- First row holding this level, as `SELECT ... WHERE level = ?` with a
single-row read would see it. -/
def lookupRow (db : List Row) (level : String) : Option Row :=
  db.find? (fun row => row.level == level)

/-- Rate of the first row holding this level. -/
def lookupRate (db : List Row) (level : String) : Option Rat :=
  (lookupRow db level).map Row.rate

/-- The level column, in row order. -/
def levelsOf (db : List Row) : List String :=
  db.map Row.level

/-- The (level, rate) content of the table, in row order: what the store
holds with timestamps erased. -/
def ratesOf (db : List Row) : List (String × Rat) :=
  db.map (fun row => (row.level, row.rate))

/-- The effect of the whole write loop on a single row: each UPDATE
statement touches the row exactly when its level matches and the storage
layer does not fail that write. `applyWrites` is the row-wise map of this
(proved below as `applyWrites_eq_map`). -/
def applyRow (fails : String → Bool) (now : Nat) (entries : List (String × Rat))
    (row : Row) : Row :=
  match entries with
  | [] => row
  | (level, rate) :: rest =>
      applyRow fails now rest
        (if fails level then row
         else if row.level == level then { row with rate := rate, updatedAt := now } else row)

/-- The rate column of a single level after the write loop: each entry
overwrites the accumulated value exactly when it matches the level and its
write does not fail. This is `applyRow` with everything but the rate
erased (proved below as `applyRow_rate_eq`). -/
def rateAfter (fails : String → Bool) (entries : List (String × Rat))
    (lv : String) (q : Rat) : Rat :=
  match entries with
  | [] => q
  | (level, rate) :: rest =>
      rateAfter fails rest lv (if fails level then q else if lv == level then rate else q)

/-! ## Basic facts about initialization -/

theorem levelExists_insertOrIgnore_self (db : List Row) (l : String) (r : Rat) (n : Nat) :
    levelExists (insertOrIgnore db l r n) l = true := by
  unfold insertOrIgnore
  split
  · assumption
  · simp [levelExists, List.any_append]

theorem levelExists_insertOrIgnore_mono (db : List Row) (l l' : String) (r : Rat) (n : Nat)
    (h : levelExists db l' = true) :
    levelExists (insertOrIgnore db l r n) l' = true := by
  unfold insertOrIgnore
  split
  · exact h
  · simp only [levelExists, List.any_append] at h ⊢
    simp [h]

theorem insertOrIgnore_of_exists (db : List Row) (l : String) (r : Rat) (n : Nat)
    (h : levelExists db l = true) :
    insertOrIgnore db l r n = db := by
  unfold insertOrIgnore
  simp [h]

/-! ## The write loop, row by row -/

theorem applyWrites_cons_fail (fails : String → Bool) (now : Nat) (l : String) (r : Rat)
    (rest : List (String × Rat)) (db : List Row) (h : fails l = true) :
    applyWrites fails now ((l, r) :: rest) db = applyWrites fails now rest db := by
  simp [applyWrites, h]

theorem applyWrites_cons_ok (fails : String → Bool) (now : Nat) (l : String) (r : Rat)
    (rest : List (String × Rat)) (db : List Row) (h : fails l = false) :
    applyWrites fails now ((l, r) :: rest) db =
      applyWrites fails now rest (updateRate db r l now) := by
  simp [applyWrites, h]

theorem applyRow_cons_fail (fails : String → Bool) (now : Nat) (l : String) (r : Rat)
    (rest : List (String × Rat)) (row : Row) (h : fails l = true) :
    applyRow fails now ((l, r) :: rest) row = applyRow fails now rest row := by
  simp [applyRow, h]

theorem applyRow_cons_ok (fails : String → Bool) (now : Nat) (l : String) (r : Rat)
    (rest : List (String × Rat)) (row : Row) (h : fails l = false) :
    applyRow fails now ((l, r) :: rest) row =
      applyRow fails now rest
        (if row.level == l then { row with rate := r, updatedAt := now } else row) := by
  simp [applyRow, h]

theorem applyRow_level (fails : String → Bool) (now : Nat) (entries : List (String × Rat))
    (row : Row) : (applyRow fails now entries row).level = row.level := by
  induction entries generalizing row with
  | nil => rfl
  | cons p rest ih =>
    obtain ⟨l, r⟩ := p
    simp only [applyRow]
    rw [ih]
    by_cases hf : fails l = true
    · simp [hf]
    · by_cases hm : (row.level == l) = true
      · simp [hf, hm]
      · simp [hf, hm]

theorem applyWrites_eq_map (fails : String → Bool) (now : Nat)
    (entries : List (String × Rat)) (db : List Row) :
    applyWrites fails now entries db = db.map (applyRow fails now entries) := by
  induction entries generalizing db with
  | nil =>
    simp [applyWrites, applyRow]
  | cons p rest ih =>
    obtain ⟨l, r⟩ := p
    by_cases hf : fails l = true
    · rw [applyWrites_cons_fail fails now l r rest db hf, ih]
      congr 1
      funext row
      rw [applyRow_cons_fail fails now l r rest row hf]
    · have hf' : fails l = false := by simpa using hf
      rw [applyWrites_cons_ok fails now l r rest db hf', ih, updateRate, List.map_map]
      congr 1
      funext row
      simp only [Function.comp_apply]
      rw [applyRow_cons_ok fails now l r rest row hf']

theorem applyRow_of_not_mem (fails : String → Bool) (now : Nat)
    (entries : List (String × Rat)) (row : Row)
    (h : row.level ∉ entries.map Prod.fst) :
    applyRow fails now entries row = row := by
  induction entries with
  | nil => rfl
  | cons p rest ih =>
    obtain ⟨l, r⟩ := p
    simp only [List.map_cons, List.mem_cons, not_or] at h
    have hm : (row.level == l) = false := by simp [h.1]
    by_cases hf : fails l = true
    · rw [applyRow_cons_fail fails now l r rest row hf]
      exact ih h.2
    · have hf' : fails l = false := by simpa using hf
      rw [applyRow_cons_ok fails now l r rest row hf', hm, if_neg (by simp)]
      exact ih h.2

theorem applyRow_of_mem (fails : String → Bool) (now : Nat)
    (entries : List (String × Rat)) (l : String) (r : Rat) (hok : fails l = false) :
    ∀ row : Row, (entries.map Prod.fst).Nodup → (l, r) ∈ entries → row.level = l →
      applyRow fails now entries row = { row with rate := r, updatedAt := now } := by
  induction entries with
  | nil =>
    intro row _ hmem _
    cases hmem
  | cons p rest ih =>
    obtain ⟨l', r'⟩ := p
    intro row hnd hmem hrow
    simp only [List.map_cons, List.nodup_cons] at hnd
    rcases List.mem_cons.mp hmem with heq | hmem'
    · injection heq with hl hr
      subst hl
      subst hr
      have hm : (row.level == l) = true := by simp [hrow]
      rw [applyRow_cons_ok fails now l r rest row hok, hm, if_pos rfl]
      apply applyRow_of_not_mem
      simpa [hrow] using hnd.1
    · have hlne : row.level ≠ l' := by
        rw [hrow]
        intro hcontra
        exact hnd.1 (hcontra ▸ List.mem_map_of_mem Prod.fst hmem')
      have hm : (row.level == l') = false := by simp [hlne]
      by_cases hf : fails l' = true
      · rw [applyRow_cons_fail fails now l' r' rest row hf]
        exact ih row hnd.2 hmem' hrow
      · have hf' : fails l' = false := by simpa using hf
        rw [applyRow_cons_ok fails now l' r' rest row hf', hm, if_neg (by simp)]
        exact ih row hnd.2 hmem' hrow

theorem lookupRow_map_of_level (g : Row → Row) (hg : ∀ row, (g row).level = row.level)
    (db : List Row) (l : String) :
    lookupRow (db.map g) l = (lookupRow db l).map g := by
  induction db with
  | nil => rfl
  | cons row rest ih =>
    unfold lookupRow at ih ⊢
    simp only [List.map_cons]
    by_cases hm : (row.level == l) = true
    · rw [List.find?_cons_of_pos (p := fun row : Row => row.level == l) _ (by simpa [hg] using hm),
        List.find?_cons_of_pos (p := fun row : Row => row.level == l) _ hm]
      rfl
    · rw [List.find?_cons_of_neg (p := fun row : Row => row.level == l) _ (by simpa [hg] using hm),
        List.find?_cons_of_neg (p := fun row : Row => row.level == l) _ hm]
      exact ih

theorem lookupRow_applyWrites (fails : String → Bool) (now : Nat)
    (entries : List (String × Rat)) (db : List Row) (l : String) :
    lookupRow (applyWrites fails now entries db) l =
      (lookupRow db l).map (applyRow fails now entries) := by
  rw [applyWrites_eq_map]
  exact lookupRow_map_of_level _ (applyRow_level fails now entries) db l

theorem lookupRow_of_mem_levels (db : List Row) (l : String) (h : l ∈ levelsOf db) :
    ∃ row, lookupRow db l = some row ∧ row.level = l := by
  induction db with
  | nil => simp [levelsOf] at h
  | cons row rest ih =>
    by_cases hm : (row.level == l) = true
    · refine ⟨row, ?_, by simpa using hm⟩
      unfold lookupRow
      rw [List.find?_cons_of_pos (p := fun row : Row => row.level == l) _ hm]
    · have hne : row.level ≠ l := by simpa using hm
      simp only [levelsOf, List.map_cons, List.mem_cons] at h
      rcases h with h | h
      · exact absurd h.symm hne
      · obtain ⟨row', h1, h2⟩ := ih h
        refine ⟨row', ?_, h2⟩
        unfold lookupRow at h1 ⊢
        rw [List.find?_cons_of_neg (p := fun row : Row => row.level == l) _ hm]
        exact h1

theorem lookupRow_eq_none_of_not_mem (db : List Row) (l : String) (h : l ∉ levelsOf db) :
    lookupRow db l = none := by
  unfold lookupRow
  rw [List.find?_eq_none]
  intro row hrow
  simp only [beq_iff_eq]
  intro hcontra
  exact h (hcontra ▸ List.mem_map_of_mem Row.level hrow)

theorem levelsOf_applyWrites (fails : String → Bool) (now : Nat)
    (entries : List (String × Rat)) (db : List Row) :
    levelsOf (applyWrites fails now entries db) = levelsOf db := by
  rw [applyWrites_eq_map]
  unfold levelsOf
  rw [List.map_map]
  congr 1
  funext row
  exact applyRow_level fails now entries row

theorem mem_applyWrites_of_not_key (fails : String → Bool) (now : Nat)
    (entries : List (String × Rat)) (db : List Row) (row : Row)
    (hrow : row ∈ db) (h : row.level ∉ entries.map Prod.fst) :
    row ∈ applyWrites fails now entries db := by
  rw [applyWrites_eq_map]
  have heq := applyRow_of_not_mem fails now entries row h
  simpa [heq] using List.mem_map_of_mem (applyRow fails now entries) hrow

theorem postBonusRates_obj (fails : String → Bool) (now : Nat)
    (entries : List (String × Rat)) (db : List Row) :
    postBonusRates fails now (.obj entries) db =
      (applyWrites fails now entries db,
        if entries.isEmpty then .noResponse
        else if entries.any (fun p => fails p.1) then .updateFailed
        else .ok) := rfl

/-! ## The rate column of one level through the write loop -/

theorem rateAfter_cons_nofail (l : String) (r : Rat) (rest : List (String × Rat))
    (lv : String) (q : Rat) :
    rateAfter (fun _ => false) ((l, r) :: rest) lv q =
      rateAfter (fun _ => false) rest lv (if lv == l then r else q) := by
  simp [rateAfter]

theorem rateAfter_not_mem (fails : String → Bool) (entries : List (String × Rat))
    (lv : String) (q : Rat) (h : lv ∉ entries.map Prod.fst) :
    rateAfter fails entries lv q = q := by
  induction entries generalizing q with
  | nil => rfl
  | cons p rest ih =>
    obtain ⟨l, r⟩ := p
    simp only [List.map_cons, List.mem_cons, not_or] at h
    have hm : (lv == l) = false := by simp [h.1]
    simp only [rateAfter, hm, Bool.false_eq_true, if_false, ite_self]
    exact ih q h.2

theorem rateAfter_indep (entries : List (String × Rat)) (lv : String)
    (hkey : lv ∈ entries.map Prod.fst) (q1 q2 : Rat) :
    rateAfter (fun _ => false) entries lv q1 = rateAfter (fun _ => false) entries lv q2 := by
  induction entries generalizing q1 q2 with
  | nil => simp at hkey
  | cons p rest ih =>
    obtain ⟨l, r⟩ := p
    by_cases hm : (lv == l) = true
    · rw [rateAfter_cons_nofail, rateAfter_cons_nofail, if_pos hm, if_pos hm]
    · have hne : lv ≠ l := by simpa using hm
      have hkey' : lv ∈ rest.map Prod.fst := by
        simpa [hne] using hkey
      rw [rateAfter_cons_nofail, rateAfter_cons_nofail, if_neg hm, if_neg hm]
      exact ih hkey' q1 q2

theorem applyRow_rate_eq (fails : String → Bool) (now : Nat)
    (entries : List (String × Rat)) (row : Row) :
    (applyRow fails now entries row).rate = rateAfter fails entries row.level row.rate := by
  induction entries generalizing row with
  | nil => rfl
  | cons p rest ih =>
    obtain ⟨l, r⟩ := p
    by_cases hf : fails l = true
    · rw [applyRow_cons_fail fails now l r rest row hf, ih row]
      simp [rateAfter, hf]
    · have hf' : fails l = false := by simpa using hf
      rw [applyRow_cons_ok fails now l r rest row hf']
      by_cases hm : (row.level == l) = true
      · rw [if_pos hm, ih]
        simp [rateAfter, hf', hm]
      · rw [if_neg hm, ih]
        simp [rateAfter, hf', hm]

/-! ## The claims -/

/-- C2: initialization is idempotent — for every store state, running the
initialization block a second time (at any later or earlier clock reading)
leaves the table exactly as after the first run: existing tiers keep their
name and rate, and no row is duplicated, because each default insert is
suppressed when a row with that name exists. -/
theorem initDatabase_idempotent (db : List Row) (t1 t2 : Nat) :
    initDatabase (initDatabase db t1) t2 = initDatabase db t1 := by
  simp only [initDatabase, defaultRates, List.foldl]
  have h1 : levelExists (insertOrIgnore db "Level I" (mkRat 5 100000) t1) "Level I" = true :=
    levelExists_insertOrIgnore_self ..
  have h2 : levelExists (insertOrIgnore (insertOrIgnore db "Level I" (mkRat 5 100000) t1)
      "Level II" (mkRat 55 1000000) t1) "Level I" = true :=
    levelExists_insertOrIgnore_mono _ _ _ _ _ h1
  have h3 : levelExists (insertOrIgnore (insertOrIgnore (insertOrIgnore db
      "Level I" (mkRat 5 100000) t1) "Level II" (mkRat 55 1000000) t1)
      "Level III" (mkRat 6 100000) t1) "Level I" = true :=
    levelExists_insertOrIgnore_mono _ _ _ _ _ h2
  have g2 : levelExists (insertOrIgnore (insertOrIgnore db "Level I" (mkRat 5 100000) t1)
      "Level II" (mkRat 55 1000000) t1) "Level II" = true :=
    levelExists_insertOrIgnore_self ..
  have g3 : levelExists (insertOrIgnore (insertOrIgnore (insertOrIgnore db
      "Level I" (mkRat 5 100000) t1) "Level II" (mkRat 55 1000000) t1)
      "Level III" (mkRat 6 100000) t1) "Level II" = true :=
    levelExists_insertOrIgnore_mono _ _ _ _ _ g2
  have k3 : levelExists (insertOrIgnore (insertOrIgnore (insertOrIgnore db
      "Level I" (mkRat 5 100000) t1) "Level II" (mkRat 55 1000000) t1)
      "Level III" (mkRat 6 100000) t1) "Level III" = true :=
    levelExists_insertOrIgnore_self ..
  rw [insertOrIgnore_of_exists _ _ _ _ h3, insertOrIgnore_of_exists _ _ _ _ g3,
    insertOrIgnore_of_exists _ _ _ _ k3]

/-- C3: after a first initialization of an empty store and before any
update, the read endpoint returns exactly the three default tiers with
their default rates 0.00005, 0.000055 and 0.00006, as name-to-rate pairs
only, in ascending lexical order of name. -/
theorem readAll_after_init (t : Nat) :
    readAll (initDatabase [] t) =
      [("Level I", mkRat 5 100000), ("Level II", mkRat 55 1000000),
       ("Level III", mkRat 6 100000)] := rfl

/-- C4: every payload that is nil or absent (`null`/`undefined`) or not a
mapping — any string, any boolean, any number — is rejected as invalid
input by the guard before any store access, and the stored rows are
untouched. -/
theorem updateRates_rejects_nonMapping (fails : String → Bool) (now : Nat)
    (db : List Row) (s : String) (b : Bool) (q : Rat) :
    postBonusRates fails now .null db = (db, .invalidInput) ∧
    postBonusRates fails now .undef db = (db, .invalidInput) ∧
    postBonusRates fails now (.str s) db = (db, .invalidInput) ∧
    postBonusRates fails now (.bool b) db = (db, .invalidInput) ∧
    postBonusRates fails now (.num q) db = (db, .invalidInput) :=
  ⟨rfl, rfl, rfl, rfl, rfl⟩

/-- C8 (counter-evidence): for the empty mapping the guard passes and zero
writes are issued, but the handler never answers at all — the success
branch sits inside the per-key callbacks and no callback ever runs — so
the operation does not terminate with a definite result, contradicting the
spec's requirement of a consistent no-op-success-or-invalid outcome. -/
theorem emptyBatch_noResponse (fails : String → Bool) (now : Nat) (db : List Row) :
    postBonusRates fails now (.obj []) db = (db, .noResponse) := rfl

/-- C9: an array payload is truthy and has object type, so the guard does
not reject it; the handler then processes it exactly as the mapping whose
keys are the array's indices rendered as decimal strings. -/
theorem arrayPayload_passes_guard (fails : String → Bool) (now : Nat)
    (vs : List Rat) (db : List Row) :
    invalidRates (.arr vs) = false ∧
    postBonusRates fails now (.arr vs) db =
      postBonusRates fails now (.obj (indexEntries vs 0)) db :=
  ⟨rfl, rfl⟩

/-- C1: when some key's write fails at the storage layer mid-batch, the
operation reports the server-error outcome (HTTP 500, the spec's
PartialUpdateFailure), and every key earlier in the batch whose own write
succeeded durably holds its new rate — no rollback. -/
theorem bulkUpdate_failure_keepsEarlierKeys
    (fails : String → Bool) (now : Nat) (db : List Row)
    (pre post : List (String × Rat)) (lf l : String) (rf r : Rat)
    (hnd : ((pre ++ (lf, rf) :: post).map Prod.fst).Nodup)
    (hfail : fails lf = true)
    (hmem : (l, r) ∈ pre) (hok : fails l = false) (hl : l ∈ levelsOf db) :
    (postBonusRates fails now (.obj (pre ++ (lf, rf) :: post)) db).2 = .updateFailed ∧
    lookupRate (postBonusRates fails now (.obj (pre ++ (lf, rf) :: post)) db).1 l = some r := by
  constructor
  · have hany : (pre ++ (lf, rf) :: post).any (fun p => fails p.1) = true := by
      simp [List.any_append, hfail]
    rw [postBonusRates_obj]
    simp [hany]
  · show lookupRate (applyWrites fails now (pre ++ (lf, rf) :: post) db) l = some r
    have hmem' : (l, r) ∈ pre ++ (lf, rf) :: post := List.mem_append_left _ hmem
    obtain ⟨row, hfind, hlevel⟩ := lookupRow_of_mem_levels db l hl
    unfold lookupRate
    rw [lookupRow_applyWrites, hfind]
    simp only [Option.map_some']
    rw [applyRow_of_mem fails now (pre ++ (lf, rf) :: post) l r hok row hnd hmem' hlevel]

/-- C1 witness: a two-key batch over the freshly initialized store whose
second write is forced to fail answers 500, and the first key holds its
new rate. -/
theorem bulkUpdate_failure_keepsEarlierKeys_witness :
    (postBonusRates (fun s => s == "Level II") 1
      (.obj ([("Level I", 1)] ++ ("Level II", 2) :: [])) (initDatabase [] 0)).2 = .updateFailed ∧
    lookupRate (postBonusRates (fun s => s == "Level II") 1
      (.obj ([("Level I", 1)] ++ ("Level II", 2) :: [])) (initDatabase [] 0)).1
      "Level I" = some 1 :=
  bulkUpdate_failure_keepsEarlierKeys (fun s => s == "Level II") 1 (initDatabase [] 0)
    [("Level I", 1)] [] "Level II" "Level I" 2 1 (by decide) (by decide)
    (by decide) (by decide) (by decide)

/-- C5: a batch containing a name absent from the tier set is a silent
no-op for that name: with no storage failure the operation still answers
success, the set of levels is unchanged, and the absent name exists
neither before nor after — no tier is created. -/
theorem bulkUpdate_unknownName_noop
    (now : Nat) (db : List Row) (entries : List (String × Rat)) (l : String)
    (hkey : l ∈ entries.map Prod.fst) (habsent : l ∉ levelsOf db) :
    (postBonusRates (fun _ => false) now (.obj entries) db).2 = .ok ∧
    levelsOf (postBonusRates (fun _ => false) now (.obj entries) db).1 = levelsOf db ∧
    lookupRow (postBonusRates (fun _ => false) now (.obj entries) db).1 l = none ∧
    lookupRow db l = none := by
  have hne : entries ≠ [] := by
    intro hcontra
    subst hcontra
    simp at hkey
  refine ⟨?_, ?_, ?_, ?_⟩
  · rw [postBonusRates_obj]
    simp [List.isEmpty_iff, hne]
  · show levelsOf (applyWrites (fun _ => false) now entries db) = levelsOf db
    exact levelsOf_applyWrites (fun _ => false) now entries db
  · show lookupRow (applyWrites (fun _ => false) now entries db) l = none
    rw [lookupRow_applyWrites, lookupRow_eq_none_of_not_mem db l habsent]
    rfl
  · exact lookupRow_eq_none_of_not_mem db l habsent

/-- C5 witness: updating the nonexistent "Level IV" with 0.5 on the
freshly initialized store succeeds and creates nothing. -/
theorem bulkUpdate_unknownName_noop_witness :
    (postBonusRates (fun _ => false) 1 (.obj [("Level IV", mkRat 1 2)])
      (initDatabase [] 0)).2 = .ok ∧
    levelsOf (postBonusRates (fun _ => false) 1 (.obj [("Level IV", mkRat 1 2)])
      (initDatabase [] 0)).1 = levelsOf (initDatabase [] 0) ∧
    lookupRow (postBonusRates (fun _ => false) 1 (.obj [("Level IV", mkRat 1 2)])
      (initDatabase [] 0)).1 "Level IV" = none ∧
    lookupRow (initDatabase [] 0) "Level IV" = none :=
  bulkUpdate_unknownName_noop 1 (initDatabase [] 0) [("Level IV", mkRat 1 2)] "Level IV"
    (by decide) (by decide)

/-- C6: a single-key update of an existing tier answers success; the
updated tier holds the new rate with its timestamp advanced to the write
time (which exceeds its old timestamp), every row of a different level is
untouched — rate and timestamp both — and the set of tier names is
exactly what it was: the update path neither creates nor deletes a tier. -/
theorem bulkUpdate_singleKey_frame
    (db : List Row) (l : String) (r : Rat) (now : Nat) (oldRow other : Row)
    (hold : lookupRow db l = some oldRow)
    (hfresh : oldRow.updatedAt < now)
    (hother : other ∈ db) (hne : other.level ≠ l) :
    (postBonusRates (fun _ => false) now (.obj [(l, r)]) db).2 = .ok ∧
    lookupRow (postBonusRates (fun _ => false) now (.obj [(l, r)]) db).1 l =
      some { oldRow with rate := r, updatedAt := now } ∧
    oldRow.updatedAt < now ∧
    other ∈ (postBonusRates (fun _ => false) now (.obj [(l, r)]) db).1 ∧
    levelsOf (postBonusRates (fun _ => false) now (.obj [(l, r)]) db).1 = levelsOf db := by
  have hlevel : oldRow.level = l := by
    have h' : List.find? (fun row => row.level == l) db = some oldRow := hold
    simpa using List.find?_some h'
  refine ⟨rfl, ?_, hfresh, ?_, ?_⟩
  · show lookupRow (applyWrites (fun _ => false) now [(l, r)] db) l =
      some { oldRow with rate := r, updatedAt := now }
    rw [lookupRow_applyWrites, hold]
    simp only [Option.map_some']
    rw [applyRow_of_mem (fun _ => false) now [(l, r)] l r rfl oldRow (by simp) (by simp) hlevel]
  · show other ∈ applyWrites (fun _ => false) now [(l, r)] db
    apply mem_applyWrites_of_not_key (fun _ => false) now [(l, r)] db other hother
    simpa using hne
  · show levelsOf (applyWrites (fun _ => false) now [(l, r)] db) = levelsOf db
    exact levelsOf_applyWrites (fun _ => false) now [(l, r)] db

/-- C6 witness: setting "Level I" to 1 at time 3 on the freshly
initialized store (timestamps 0) updates exactly that row and keeps
"Level II" byte-for-byte. -/
theorem bulkUpdate_singleKey_frame_witness :
    (postBonusRates (fun _ => false) 3 (.obj [("Level I", 1)]) (initDatabase [] 0)).2 = .ok ∧
    lookupRow (postBonusRates (fun _ => false) 3 (.obj [("Level I", 1)])
      (initDatabase [] 0)).1 "Level I" = some ⟨"Level I", 1, 3⟩ ∧
    (0 : Nat) < 3 ∧
    (⟨"Level II", mkRat 55 1000000, 0⟩ : Row) ∈
      (postBonusRates (fun _ => false) 3 (.obj [("Level I", 1)]) (initDatabase [] 0)).1 ∧
    levelsOf (postBonusRates (fun _ => false) 3 (.obj [("Level I", 1)])
      (initDatabase [] 0)).1 = levelsOf (initDatabase [] 0) :=
  bulkUpdate_singleKey_frame (initDatabase [] 0) "Level I" 1 3
    ⟨"Level I", mkRat 5 100000, 0⟩ ⟨"Level II", mkRat 55 1000000, 0⟩
    (by decide) (by decide) (by decide) (by decide)

/-- C7: the bulk update is idempotent on rate values — running the same
valid batch twice in a row (at any two write times) leaves the store with
the same level-to-rate content as running it once; only timestamps can
differ between the two runs. -/
theorem bulkUpdate_idempotent (entries : List (String × Rat)) (db : List Row) (t1 t2 : Nat) :
    ratesOf (postBonusRates (fun _ => false) t2 (.obj entries)
        (postBonusRates (fun _ => false) t1 (.obj entries) db).1).1 =
      ratesOf (postBonusRates (fun _ => false) t1 (.obj entries) db).1 := by
  show ratesOf (applyWrites (fun _ => false) t2 entries
      (applyWrites (fun _ => false) t1 entries db)) =
    ratesOf (applyWrites (fun _ => false) t1 entries db)
  rw [applyWrites_eq_map, applyWrites_eq_map]
  unfold ratesOf
  rw [List.map_map, List.map_map, List.map_map]
  congr 1
  funext row
  simp only [Function.comp_apply, Prod.mk.injEq]
  constructor
  · rw [applyRow_level]
  · rw [applyRow_rate_eq (fun _ => false) t2 entries, applyRow_level,
      applyRow_rate_eq (fun _ => false) t1 entries row]
    by_cases hkey : row.level ∈ entries.map Prod.fst
    · exact rateAfter_indep entries row.level hkey
        (rateAfter (fun _ => false) entries row.level row.rate) row.rate
    · rw [rateAfter_not_mem (fun _ => false) entries row.level _ hkey]

/-- C10: a mid-batch storage failure does not stop the remaining writes:
every statement after the failing key is still issued, so a later key
whose own write succeeds ends up holding its new rate even though the
operation answers 500. -/
theorem bulkUpdate_failure_appliesLaterKeys
    (fails : String → Bool) (now : Nat) (db : List Row)
    (pre post : List (String × Rat)) (lf l : String) (rf r : Rat)
    (hnd : ((pre ++ (lf, rf) :: post).map Prod.fst).Nodup)
    (hfail : fails lf = true)
    (hmem : (l, r) ∈ post) (hok : fails l = false) (hl : l ∈ levelsOf db) :
    (postBonusRates fails now (.obj (pre ++ (lf, rf) :: post)) db).2 = .updateFailed ∧
    lookupRate (postBonusRates fails now (.obj (pre ++ (lf, rf) :: post)) db).1 l = some r := by
  constructor
  · have hany : (pre ++ (lf, rf) :: post).any (fun p => fails p.1) = true := by
      simp [List.any_append, hfail]
    rw [postBonusRates_obj]
    simp [hany]
  · show lookupRate (applyWrites fails now (pre ++ (lf, rf) :: post) db) l = some r
    have hmem' : (l, r) ∈ pre ++ (lf, rf) :: post :=
      List.mem_append_right _ (List.mem_cons_of_mem _ hmem)
    obtain ⟨row, hfind, hlevel⟩ := lookupRow_of_mem_levels db l hl
    unfold lookupRate
    rw [lookupRow_applyWrites, hfind]
    simp only [Option.map_some']
    rw [applyRow_of_mem fails now (pre ++ (lf, rf) :: post) l r hok row hnd hmem' hlevel]

/-- C10 witness: a batch whose first write fails still applies the second
key's write: "Level II" holds its new rate while the operation answers
500. -/
theorem bulkUpdate_failure_appliesLaterKeys_witness :
    (postBonusRates (fun s => s == "Level I") 1
      (.obj ([] ++ ("Level I", 1) :: [("Level II", 2)])) (initDatabase [] 0)).2 =
      .updateFailed ∧
    lookupRate (postBonusRates (fun s => s == "Level I") 1
      (.obj ([] ++ ("Level I", 1) :: [("Level II", 2)])) (initDatabase [] 0)).1
      "Level II" = some 2 :=
  bulkUpdate_failure_appliesLaterKeys (fun s => s == "Level I") 1 (initDatabase [] 0)
    [] [("Level II", 2)] "Level I" "Level II" 1 2 (by decide) (by decide)
    (by decide) (by decide) (by decide)

end TBank
